import Mathlib

/-!
Verification of the quantity-extraction and matching engine of the delivery
validation service (`validation_service/function_app.py` and collaborators).

The embedding models:
  * `extract_quantities_from_text` — the numeric tokenizer
    (regex `\b\d{1,3}(?:[,\s]?\d{3})*(?:\.\d+)?\b`, `re.findall` scan,
    separator cleanup, `float(...)` parse with silent drop on failure);
  * `extract_cargo_discharged_weight` — the field locator
    (whitespace/dash normalisation, eight prioritised label patterns with a
    shared numeric capture group, first-match-wins);
  * the match resolution and AI-scorer override logic of the `validate`
    HTTP handler, and the retry loop of `ValidationAgent.validate`.

Numbers are modelled as exact rationals (`ℚ`).  All inputs relevant to the
claims are decimal strings with a few digits, where IEEE double arithmetic
agrees with exact rational arithmetic, and the properties at stake
(strictness of the tolerance comparison, provenance of matched values,
control flow of retries) do not depend on binary rounding.

Texts are lists of characters.  Python's `\w`, `\s` and `str.upper` are
modelled by their ASCII behaviour (`Char.isAlphanum`, `Char.isWhitespace`,
`Char.toUpper`); every concrete input considered here is ASCII.
-/

namespace OcrValidation

/-- Word characters for the word-boundary test `\b` (ASCII model of `\w`). -/
def isWordChar (c : Char) : Bool := c.isAlphanum || c = '_'

/-- The regex class `[,\s]` of optional group separators inside the
tokenizer's numeric grammar. -/
def isSepCh (c : Char) : Bool := c = ',' || c.isWhitespace

/-- The regex class `[\d,\.\s]` of inner characters of the locator's
numeric capture group `NUM`. -/
def isNumCh (c : Char) : Bool := c.isDigit || c = ',' || c = '.' || c.isWhitespace

/-- The cleanup `raw.replace(',', '').replace(' ', '')` applied to every
captured numeric string before `float(...)`.  Note that it removes only
commas and ASCII spaces, not other whitespace. -/
def cleanSeps (t : List Char) : List Char := t.filter (fun c => !(c = ',' || c = ' '))

/-- Value of a digit string (most significant first). -/
def digitsToNat (ds : List Char) : ℕ := ds.foldl (fun n c => 10 * n + (c.toNat - 48)) 0

/-- Leading and trailing whitespace, which Python's `float` ignores. -/
def trimWS (s : List Char) : List Char :=
  ((s.dropWhile Char.isWhitespace).reverse.dropWhile Char.isWhitespace).reverse

/-- Model of Python `float(s)` on the strings reachable in this program:
after cleanup the candidate strings consist of digits, dots, and possibly
leftover (non-space) whitespace.  `float` strips outer whitespace, then
accepts `digits`, `digits.digits`, `digits.`, or `.digits`; anything else
(several dots, interior whitespace, empty) raises `ValueError`, modelled as
`none`.  Signs, exponents, `inf`/`nan` and underscores cannot occur in the
reachable inputs and are not modelled. -/
def parseFloat (s0 : List Char) : Option ℚ :=
  let s := trimWS s0
  if s = [] then none
  else if s.all Char.isDigit then some ((digitsToNat s : ℕ) : ℚ)
  else
    let a := s.takeWhile (fun c => !(c = '.'))
    match s.dropWhile (fun c => !(c = '.')) with
    | '.' :: b =>
        if a.all Char.isDigit && b.all Char.isDigit && (!(a.isEmpty && b.isEmpty)) then
          some (mkRat (digitsToNat a * 10 ^ b.length + digitsToNat b) (10 ^ b.length))
        else none
    | _ => none

/-- First successful application of `f` along a list (the order in which a
backtracking regex engine tries alternatives). -/
def firstSome {α β : Type} (f : α → Option β) : List α → Option β
  | [] => none
  | a :: l =>
    match f a with
    | some b => some b
    | none => firstSome f l

theorem firstSome_eq_some {α β : Type} {f : α → Option β} {l : List α} {b : β}
    (h : firstSome f l = some b) : ∃ a ∈ l, f a = some b := by
  induction l with
  | nil => simp [firstSome] at h
  | cons a l ih =>
    simp only [firstSome] at h
    cases hfa : f a with
    | some b0 =>
      rw [hfa] at h
      exact ⟨a, List.mem_cons_self a l, hfa.trans h⟩
    | none =>
      rw [hfa] at h
      obtain ⟨x, hx, hfx⟩ := ih h
      exact ⟨x, List.mem_cons_of_mem a hx, hfx⟩

/-! ## The numeric tokenizer

`extract_quantities_from_text` scans with
`re.findall(r'\b\d{1,3}(?:[,\s]?\d{3})*(?:\.\d+)?\b', text)`.
The matcher below reproduces the engine's backtracking order at one
position: the leading `\d{1,3}` greedily (3, 2, 1 digits), then the group
star greedily (maximal run of `[,\s]?\d{3}` groups, cut back one group at a
time), then the optional decimal part greedily (`\.` plus a maximal run of
digits, shortened one digit at a time, then omitted), and finally the
closing `\b`.  The opening `\b` holds iff the preceding character is not a
word character (the first matched character is always a digit). -/

/-- All splits of a nonempty leading digit run, longest first: the
alternatives of a greedy `\d+` (and, filtered to length ≤ 3, of `\d{1,3}`). -/
def digitSplits : List Char → List (List Char × List Char)
  | [] => []
  | c :: r =>
    if c.isDigit then
      ((digitSplits r).map (fun p => (c :: p.1, p.2))) ++ [([c], r)]
    else []

/-- Alternatives of the greedy `\d{1,3}`: up to three leading digits,
longest first. -/
def digitCands (cs : List Char) : List (List Char × List Char) :=
  (digitSplits cs).filter (fun p => p.1.length ≤ 3)

/-- One group `[,\s]?\d{3}`.  The separator and digit alternatives are
mutually exclusive (a separator is never a digit), so a single group
matches deterministically: if a separator is present it must be consumed
and exactly three digits must follow. -/
def group1 : List Char → Option (List Char × List Char)
  | c :: d1 :: d2 :: d3 :: r =>
    if isSepCh c then
      if d1.isDigit && d2.isDigit && d3.isDigit then some ([c, d1, d2, d3], r) else none
    else
      if c.isDigit && d1.isDigit && d2.isDigit then some ([c, d1, d2], d3 :: r) else none
  | c :: d1 :: d2 :: r =>
    if isSepCh c then none
    else if c.isDigit && d1.isDigit && d2.isDigit then some ([c, d1, d2], r) else none
  | _ => none

/-- Chains of consecutive groups, by increasing group count (`chainAux`
returns the 0-group split first; the star's greedy order is its reverse).
`fuel` dominates the recursion depth; callers pass the list length, which
is sufficient because each group consumes at least three characters. -/
def chainAux : ℕ → List Char → List (List Char × List Char)
  | 0, cs => [([], cs)]
  | f + 1, cs =>
    ([], cs) ::
      (match group1 cs with
       | some (g, r) => (chainAux f r).map (fun p => (g ++ p.1, p.2))
       | none => [])

/-- Alternatives of the optional decimal part `(?:\.\d+)?`, greedy:
the dot plus a maximal digit run, shortened one digit at a time, and
finally the empty alternative. -/
def decCands (cs : List Char) : List (List Char × List Char) :=
  (match cs with
   | c :: r => if c = '.' then (digitSplits r).map (fun p => ('.' :: p.1, p.2)) else []
   | [] => []) ++ [([], cs)]

/-- Does the closing `\b` hold before `rest`? -/
def endBoundary (rest : List Char) : Bool :=
  match rest with
  | [] => true
  | c :: _ => !isWordChar c

/-- Does the opening `\b` hold after `prev` (the character before the
match position), given that the first matched character is a digit? -/
def startBoundary (prev : Option Char) : Bool :=
  match prev with
  | none => true
  | some c => !isWordChar c

/-- Attempt the token regex at one position.  Returns the matched
substring and the remainder of the text. -/
def tryMatch (prev : Option Char) (cs : List Char) : Option (List Char × List Char) :=
  if startBoundary prev then
    firstSome (fun d =>
      firstSome (fun g =>
        firstSome (fun e =>
          if endBoundary e.2 then some (d.1 ++ g.1 ++ e.1, e.2) else none)
          (decCands g.2))
        ((chainAux d.2.length d.2).reverse))
      (digitCands cs)
  else none

/-- The `re.findall` scan: try a match at every position; on success
continue after the match (the character before the new position is the
last character of the match), otherwise advance one character.  `fuel`
bounds the number of steps; the text length suffices since every step
consumes at least one character. -/
def scanTokens : ℕ → Option Char → List Char → List (List Char)
  | 0, _, _ => []
  | _ + 1, _, [] => []
  | f + 1, prev, c :: rest =>
    match tryMatch prev (c :: rest) with
    | some (t, r) => t :: scanTokens f t.getLast? r
    | none => scanTokens f (some c) rest

/-- All substrings matched by the tokenizer's regex, in text order. -/
def tokensOf (cs : List Char) : List (List Char) := scanTokens cs.length none cs

/-- `extract_quantities_from_text` (function_app.py lines 123–133, and the
identical copies in app.py / validation_service/app.py): find all token
matches, strip commas and spaces, parse as a float; parse failures are
silently dropped. -/
def extract_quantities_from_text (text : List Char) : List ℚ :=
  (tokensOf text).filterMap (fun t => parseFloat (cleanSeps t))

/-! ## The field locator

`extract_cargo_discharged_weight` first normalises the text
(`re.sub(r'[–—‒]', '-', text)` then `re.sub(r'\s+', ' ', .)`),
then tries eight label patterns in priority order with `re.search` and
`re.IGNORECASE`; the first pattern that matches has its numeric capture
cleaned and parsed, a parse failure moves on to the next pattern.

In the normalised text every whitespace run is a single space.  Within each
pattern the alternations and optional pieces are decided by mutually
exclusive leading characters (e.g. `EIGHT` vs `T` after `W`, `QTY` vs
`QUANTITY`, an optional `.`/`:`/`-`/`=` is never followed by an item that
could also start with it), so each pattern matches deterministically at a
given position and the matchers below need no backtracking. -/

/-- En dash, em dash and figure dash are normalised to an ASCII hyphen. -/
def dashFix (c : Char) : Char :=
  if c = Char.ofNat 0x2013 || c = Char.ofNat 0x2014 || c = Char.ofNat 0x2012 then '-' else c

/-- `re.sub(r'\s+', ' ', s)`: collapse every whitespace run to one space.
The flag records whether the previous character was whitespace. -/
def collapseWS : Bool → List Char → List Char
  | _, [] => []
  | inRun, c :: rest =>
    if c.isWhitespace then
      if inRun then collapseWS true rest else ' ' :: collapseWS true rest
    else c :: collapseWS false rest

/-- The normalisation step of `extract_cargo_discharged_weight`. -/
def normalizeText (cs : List Char) : List Char := collapseWS false (cs.map dashFix)

/-- Case-insensitive literal: match the (uppercase) pattern characters
against the text, consuming them; `re.IGNORECASE` modelled by uppercasing
the text character. -/
def litCI : List Char → List Char → Option (List Char)
  | [], cs => some cs
  | _ :: _, [] => none
  | l :: ls, c :: cs => if c.toUpper = l then litCI ls cs else none

/-- Ordered alternation of literals (first alternative that matches wins;
the alternatives used in the patterns are prefix-exclusive). -/
def litAlts : List (List Char) → List Char → Option (List Char)
  | [], _ => none
  | l :: ls, cs =>
    match litCI l cs with
    | some r => some r
    | none => litAlts ls cs

/-- Greedy `\s*`. -/
def wsStar (cs : List Char) : List Char := cs.dropWhile Char.isWhitespace

/-- Greedy optional single character of a class (`X?`). -/
def optCh (p : Char → Bool) : List Char → List Char
  | [] => []
  | c :: r => if p c then r else c :: r

/-- Greedy optional literal (`(?:LIT)?`). -/
def optLit (l : List Char) (cs : List Char) : List Char :=
  match litCI l cs with
  | some r => r
  | none => cs

/-- The capture group `NUM = ([\d][\d,\.\s]*\d|\d+)`: a digit, then
greedily the longest run of digits/commas/dots/whitespace that still ends
with a digit; if no second digit is available in that run, the second
alternative `\d+` yields the single leading digit. -/
def numToken (cs : List Char) : Option (List Char) :=
  match cs with
  | [] => none
  | c :: _ =>
    if c.isDigit then
      let run := cs.takeWhile isNumCh
      let tok := (run.reverse.dropWhile (fun ch => !ch.isDigit)).reverse
      if 2 ≤ tok.length then some tok else some [c]
    else none

/-- The common tail `\s*[:\-=]?\s*NUM` of all eight patterns. -/
def sepNum (cs : List Char) : Option (List Char) :=
  numToken (wsStar (optCh (fun c => c = ':' || c = '-' || c = '=') (wsStar cs)))

/-- `(?:OF\s*)?`. -/
def optOfWs (cs : List Char) : List Char :=
  match litCI ("OF".toList) cs with
  | some r => wsStar r
  | none => cs

/-- `(?:CARGO\s*)?`. -/
def optCargoWs (cs : List Char) : List Char :=
  match litCI ("CARGO".toList) cs with
  | some r => wsStar r
  | none => cs

/-- The qualifier alternation `(?:WEIGHT|WT|QTY|QUANTITY|VALUE)`. -/
def qualWord (cs : List Char) : Option (List Char) :=
  litAlts [("WEIGHT".toList), ("WT".toList), ("QTY".toList), ("QUANTITY".toList),
    ("VALUE".toList)] cs

/-- Pattern 1: `W(?:EIGHT|T)\.?\s*(?:OF\s*)?CARGO\s*DISCHARGED\s*[:\-=]?\s*NUM`. -/
def pat1 (cs : List Char) : Option (List Char) :=
  (litCI ("W".toList) cs).bind fun r1 =>
  (litAlts [("EIGHT".toList), ("T".toList)] r1).bind fun r2 =>
  (litCI ("CARGO".toList) (optOfWs (wsStar (optCh (fun c => c = '.') r2)))).bind fun r3 =>
  (litCI ("DISCHARGED".toList) (wsStar r3)).bind fun r4 =>
  sepNum r4

/-- Pattern 2:
`CARGO\s*DISCHARGED\s*(?:WEIGHT|WT|QTY|QUANTITY|VALUE|VOL(?:UME)?)\.?\s*[:\-=]?\s*NUM`. -/
def pat2 (cs : List Char) : Option (List Char) :=
  (litCI ("CARGO".toList) cs).bind fun r1 =>
  (litCI ("DISCHARGED".toList) (wsStar r1)).bind fun r2 =>
  (match qualWord (wsStar r2) with
   | some r => some r
   | none => (litCI ("VOL".toList) (wsStar r2)).map (optLit ("UME".toList))).bind fun r3 =>
  sepNum (optCh (fun c => c = '.') r3)

/-- Pattern 3: `DISCHARGED\s*(?:WEIGHT|WT|QTY|QUANTITY|VALUE|CARGO)\.?\s*[:\-=]?\s*NUM`. -/
def pat3 (cs : List Char) : Option (List Char) :=
  (litCI ("DISCHARGED".toList) cs).bind fun r1 =>
  (litAlts [("WEIGHT".toList), ("WT".toList), ("QTY".toList), ("QUANTITY".toList),
    ("VALUE".toList), ("CARGO".toList)] (wsStar r1)).bind fun r2 =>
  sepNum (optCh (fun c => c = '.') r2)

/-- Pattern 4: `(?:WEIGHT|WT|QTY|QUANTITY|VALUE)\s*(?:OF\s*)?(?:CARGO\s*)?DISCHARGED\s*[:\-=]?\s*NUM`. -/
def pat4 (cs : List Char) : Option (List Char) :=
  (qualWord cs).bind fun r1 =>
  (litCI ("DISCHARGED".toList) (optCargoWs (optOfWs (wsStar r1)))).bind fun r2 =>
  sepNum r2

/-- Pattern 5: `(?:QUANTITY|QTY)\s*DISCHARGED\s*[:\-=]?\s*NUM`. -/
def pat5 (cs : List Char) : Option (List Char) :=
  (litAlts [("QUANTITY".toList), ("QTY".toList)] cs).bind fun r1 =>
  (litCI ("DISCHARGED".toList) (wsStar r1)).bind fun r2 =>
  sepNum r2

/-- Pattern 6: `(?:TOTAL|NET|GROSS)\s*(?:CARGO\s*)?DISCHARGED\s*[:\-=]?\s*NUM`. -/
def pat6 (cs : List Char) : Option (List Char) :=
  (litAlts [("TOTAL".toList), ("NET".toList), ("GROSS".toList)] cs).bind fun r1 =>
  (litCI ("DISCHARGED".toList) (optCargoWs (wsStar r1))).bind fun r2 =>
  sepNum r2

/-- Pattern 7 (last-resort): `DISCHARGED\s*[:\-=]?\s*NUM`. -/
def pat7 (cs : List Char) : Option (List Char) :=
  (litCI ("DISCHARGED".toList) cs).bind fun r1 =>
  sepNum r1

/-- Pattern 8: `DELIVERED\s*(?:WEIGHT|WT|QTY|QUANTITY|VALUE)\.?\s*[:\-=]?\s*NUM`. -/
def pat8 (cs : List Char) : Option (List Char) :=
  (litCI ("DELIVERED".toList) cs).bind fun r1 =>
  (qualWord (wsStar r1)).bind fun r2 =>
  sepNum (optCh (fun c => c = '.') r2)

/-- `re.search`: try the pattern at each position from the left; return the
first position's capture. -/
def searchCapture (p : List Char → Option (List Char)) : List Char → Option (List Char)
  | [] => p []
  | c :: rest =>
    match p (c :: rest) with
    | some cap => some cap
    | none => searchCapture p rest

/-- The eight label patterns, in priority order. -/
def cargoPatterns : List (List Char → Option (List Char)) :=
  [pat1, pat2, pat3, pat4, pat5, pat6, pat7, pat8]

/-- The pattern loop of `extract_cargo_discharged_weight` (lines 110–120):
for each pattern in order, search; on a match, clean and parse the capture
and return it; on a parse failure (`ValueError`) fall through to the
NEXT pattern; if the pattern does not match anywhere, likewise continue. -/
def locateFrom : List (List Char → Option (List Char)) → List Char → Option ℚ
  | [], _ => none
  | p :: ps, cs =>
    match searchCapture p cs with
    | some raw =>
      match parseFloat (cleanSeps raw) with
      | some v => some v
      | none => locateFrom ps cs
    | none => locateFrom ps cs

/-- `extract_cargo_discharged_weight` (function_app.py lines 71–120). -/
def extract_cargo_discharged_weight (text : List Char) : Option ℚ :=
  locateFrom cargoPatterns (normalizeText text)

/-! ## The AI scorer (ai_agent.py)

`ValidationAgent.validate` builds a prompt, calls the chat API with up to
two retries on 429 rate-limit errors (sleeping 15 then 30 seconds), parses
the JSON answer and normalises it with `_process_ai_response`.  Any
unhandled exception is caught and turned into `None`.  The network call is
an external collaborator: it is modelled as a function from the attempt
number to an outcome. -/

/-- The normalised scorer answer produced by `_process_ai_response`. -/
structure ScorerResult where
  is_valid : Bool
  matched_value : Option ℚ
  confidence : ℚ
  reasoning : String
  field_location : String
deriving DecidableEq, Repr

/-- The raw JSON object returned by the model: every field may be absent
(or `null`, which `dict.get` also reports as `None`). -/
structure RawAi where
  is_valid : Option Bool
  matched_value : Option ℚ
  confidence : Option ℚ
  reasoning : Option String
  field_location : Option String
deriving DecidableEq, Repr

/-- `_process_ai_response` (ai_agent.py lines 181–189): fill in defaults
and clamp the confidence to 0–100. -/
def processAiResponse (r : RawAi) : ScorerResult :=
  { is_valid := r.is_valid.getD false
    matched_value := r.matched_value
    confidence := min 100 (max 0 (r.confidence.getD 0))
    reasoning := r.reasoning.getD "No reasoning provided"
    field_location := r.field_location.getD "Unknown" }

/-- Outcome of one chat-completions call: a successful response carrying
the parsed JSON object, a 429 rate-limit error, or any other error. -/
inductive CallOutcome where
  | ok (raw : RawAi)
  | rateLimit
  | otherErr
deriving DecidableEq, Repr

/-- The retry loop of `ValidationAgent.validate` (ai_agent.py lines
85–104): `for attempt in range(max_retries + 1)` with `max_retries = 2`;
a 429 error with `attempt < max_retries` sleeps `15 * (attempt + 1)`
seconds and retries, anything else re-raises (which the outer handler
turns into `None`).  Returns the successful raw response (or `none`) and
the list of sleeps performed.  `fuel` is the number of remaining loop
iterations (3 at entry). -/
def attemptLoop (outcomes : ℕ → CallOutcome) : ℕ → ℕ → List ℕ → Option RawAi × List ℕ
  | _, 0, waits => (none, waits)
  | attempt, f + 1, waits =>
    match outcomes attempt with
    | .ok r => (some r, waits)
    | .rateLimit =>
      if attempt < 2 then attemptLoop outcomes (attempt + 1) f (waits ++ [15 * (attempt + 1)])
      else (none, waits)
    | .otherErr => (none, waits)

/-- `ValidationAgent.validate` (ai_agent.py lines 52–111): `None` when the
agent is disabled; otherwise run the retry loop and normalise a successful
answer, with every failure path caught and mapped to `None`. -/
def agentValidate (enabled : Bool) (outcomes : ℕ → CallOutcome) :
    Option ScorerResult × List ℕ :=
  if enabled then
    match attemptLoop outcomes 0 3 [] with
    | (some raw, w) => (some (processAiResponse raw), w)
    | (none, w) => (none, w)
  else (none, [])

/-! ## The validate handler (function_app.py lines 171–293)

Blob download and Document Intelligence are external collaborators; the
core logic starts from the extracted text.  The matching section
(lines 226–241), the scorer override (lines 243–251) and the result
payload (lines 253–293) are modelled below.  The `remarks` f-strings are
modelled structurally (which message was chosen, with its data) rather
than as formatted text. -/

/-- The tolerance literal `0.01` of the matching code. -/
def tolerance : ℚ := mkRat 1 100

theorem tolerance_eq : tolerance = 1 / 100 := by
  unfold tolerance
  rw [Rat.mkRat_eq_divInt, Rat.divInt_eq_div]
  norm_num

/-- Python's `abs` on rationals (kernel-computable; equal to `|·|`). -/
def rabs (x : ℚ) : ℚ := if x < 0 then -x else x

theorem rabs_eq_abs (x : ℚ) : rabs x = |x| := by
  unfold rabs
  by_cases h : x < 0
  · rw [if_pos h, abs_of_neg h]
  · rw [if_neg h, abs_of_nonneg (le_of_not_lt h)]

/-- Subtraction on `ℚ` written out on numerators and denominators
(kernel-computable; equal to `-`). -/
def qsub (a b : ℚ) : ℚ := Rat.divInt (a.num * b.den - b.num * a.den) (a.den * b.den)

theorem qsub_eq_sub (a b : ℚ) : qsub a b = a - b := by
  unfold qsub
  rw [Rat.divInt_eq_div]
  have ha : (a.den : ℚ) ≠ 0 := by exact_mod_cast a.den_ne_zero
  have hb : (b.den : ℚ) ≠ 0 := by exact_mod_cast b.den_ne_zero
  rw [div_eq_iff (by push_cast; exact mul_ne_zero ha hb)]
  push_cast
  rw [sub_mul]
  rw [show (a.num : ℚ) * b.den - b.num * a.den = a.num * b.den - b.num * a.den from rfl]
  have hna : (a.num : ℚ) = a * a.den := (div_eq_iff ha).1 (Rat.num_div_den a)
  have hnb : (b.num : ℚ) = b * b.den := (div_eq_iff hb).1 (Rat.num_div_den b)
  rw [hna, hnb]
  ring

/-- The matching section (lines 226–241): priority 1 compares the located
cargo weight against the entered quantity; priority 2 scans every
extracted quantity in text order and keeps the first within tolerance. -/
def resolveMatch (entered : ℚ) (cargo : Option ℚ) (qtys : List ℚ) : Bool × Option ℚ :=
  let first :=
    match cargo with
    | some cw => if rabs (qsub cw entered) < tolerance then (true, some cw) else (false, none)
    | none => (false, none)
  if first.1 then first
  else
    match qtys.find? (fun q => decide (rabs (qsub q entered) < tolerance)) with
    | some q => (true, some q)
    | none => (false, none)

/-- The scorer override (lines 243–251): when the agent returned a result,
`match_found = ai_info.get('is_valid', match_found)` (the key is always
present after `_process_ai_response`) and `matched_value` is replaced only
when the scorer's `matched_value` is not `None`. -/
def applyScorer (mf : Bool) (mv : Option ℚ) (ai : Option ScorerResult) : Bool × Option ℚ :=
  match ai with
  | none => (mf, mv)
  | some r =>
    (r.is_valid,
      match r.matched_value with
      | some v => some v
      | none => mv)

/-- The `remarks` message of the failure payload, modelled structurally:
with a located cargo weight the message names that weight only; without
one it lists every extracted quantity. -/
inductive Remark where
  | mismatchField (deliveryQty cargoWeight : ℚ)
  | notFound (deliveryQty : ℚ) (allExtracted : List ℚ)
deriving DecidableEq, Repr

/-- The JSON result document assembled by `validate` (lines 253–286);
`record_id`, `processed_at` and the blob write are external concerns and
not modelled. -/
structure Payload where
  status : String
  delivery_quantity : ℚ
  matched_quantity : Option ℚ
  cargo_discharged_weight : Option ℚ
  remarks : Option Remark
  extracted_quantities : List ℚ
  extracted_text_preview : List Char
  ai_agent : Option ScorerResult
deriving DecidableEq, Repr

/-- Result assembly (lines 253–286). -/
def buildResult (text : List Char) (entered : ℚ) (mf : Bool) (mv : Option ℚ)
    (cargo : Option ℚ) (qtys : List ℚ) (ai : Option ScorerResult) : Payload :=
  if mf then
    { status := "success"
      delivery_quantity := entered
      matched_quantity := mv
      cargo_discharged_weight := cargo
      remarks := none
      extracted_quantities := qtys
      extracted_text_preview := text.take 500
      ai_agent := ai }
  else
    { status := "error"
      delivery_quantity := entered
      matched_quantity := none
      cargo_discharged_weight := cargo
      remarks := some
        (match cargo with
         | some cw => Remark.mismatchField entered cw
         | none => Remark.notFound entered qtys)
      extracted_quantities := qtys
      extracted_text_preview := text.take 500
      ai_agent := ai }

/-- The core of the `validate` handler after text extraction
(lines 219–286), as a function of the extracted text, the entered
quantity, and the agent's result (`None` when the agent is disabled or
failed). -/
def validate_core (text : List Char) (entered : ℚ) (ai : Option ScorerResult) : Payload :=
  let qtys := extract_quantities_from_text text
  let cargo := extract_cargo_discharged_weight text
  let base := resolveMatch entered cargo qtys
  let fin := applyScorer base.1 base.2 ai
  buildResult text entered fin.1 fin.2 cargo qtys ai

/-- The request body of `POST /api/validate`.  `delivery_quantity` is
`none` when the field is absent and `some none` when present but not
parseable by `float(...)`. -/
structure ReqBody where
  record_id : Option String
  delivery_quantity : Option (Option ℚ)
  blob_name : Option String

/-- The request-validation section of `validate` (lines 185–212): a
missing or non-JSON body, missing/empty required fields, or a non-numeric
quantity yield an HTTP 400 error response with no result document; a
well-formed request is processed and answered with HTTP 200 and the full
result payload (whether or not the quantities matched). -/
def validate_endpoint (body : Option ReqBody) (docText : List Char)
    (ai : Option ScorerResult) : ℕ × Option Payload :=
  match body with
  | none => (400, none)
  | some b =>
    if b.record_id.getD "" = "" || b.delivery_quantity.isNone || b.blob_name.getD "" = "" then
      (400, none)
    else
      match b.delivery_quantity with
      | some (some q) => (200, some (validate_core docText q ai))
      | _ => (400, none)

/-! ## Token grammars as predicates on whole strings

`tokenGrammar` decides whether a whole string is generated by the
tokenizer's numeric grammar `\d{1,3}(?:[,\s]?\d{3})*(?:\.\d+)?`;
`numGrammar` decides whether a whole string is generated by the locator's
capture grammar `[\d][\d,\.\s]*\d|\d+`. -/

/-- Acceptance of the part after the leading digits: a run of groups
`[,\s]?\d{3}` followed by an optional final `\.\d+`.  `fuel` bounds the
recursion; the string length suffices (each group consumes ≥ 3 characters). -/
def tokTailCheck : ℕ → List Char → Bool
  | _, [] => true
  | 0, _ :: _ => false
  | f + 1, c :: cs =>
    (c == '.' && !cs.isEmpty && cs.all Char.isDigit) ||
      (match group1 (c :: cs) with
       | some p => tokTailCheck f p.2
       | none => false)

/-- Whole-string acceptance by the tokenizer's numeric grammar. -/
def tokenGrammar (s : List Char) : Bool :=
  (digitCands s).any (fun p => tokTailCheck p.2.length p.2)

/-- Whole-string acceptance by the locator's numeric capture grammar. -/
def numGrammar (s : List Char) : Bool :=
  (match s with
   | c :: _ =>
     c.isDigit && decide (2 ≤ s.length) && s.all isNumCh &&
       (match s.getLast? with
        | some d => d.isDigit
        | none => false)
   | [] => false) ||
  (!s.isEmpty && s.all Char.isDigit)

/-! ## Structural lemmas about the tokenizer -/

/-- Shape of everything after the leading digits of a matched token. -/
inductive TokTail : List Char → Prop where
  | nil : TokTail []
  | dec (ds : List Char) (hne : ds ≠ []) (hds : ∀ c ∈ ds, c.isDigit = true) :
      TokTail ('.' :: ds)
  | grpSep (c d1 d2 d3 : Char) (rest : List Char) (hc : isSepCh c = true)
      (h1 : d1.isDigit = true) (h2 : d2.isDigit = true) (h3 : d3.isDigit = true)
      (ht : TokTail rest) : TokTail (c :: d1 :: d2 :: d3 :: rest)
  | grpNoSep (d1 d2 d3 : Char) (rest : List Char)
      (h1 : d1.isDigit = true) (h2 : d2.isDigit = true) (h3 : d3.isDigit = true)
      (ht : TokTail rest) : TokTail (d1 :: d2 :: d3 :: rest)

/-- Shape of a whole matched token: one to three digits, then a `TokTail`. -/
def TokenShape (t : List Char) : Prop :=
  ∃ d rest, t = d ++ rest ∧ d ≠ [] ∧ d.length ≤ 3 ∧
    (∀ c ∈ d, c.isDigit = true) ∧ TokTail rest

theorem digit_not_ws {c : Char} (h : c.isDigit = true) : c.isWhitespace = false := by
  cases hw : c.isWhitespace with
  | false => rfl
  | true =>
    exfalso
    simp only [Char.isWhitespace, Bool.or_eq_true, decide_eq_true_eq] at hw
    rcases hw with ((h1 | h1) | h1) | h1 <;> (subst h1; exact absurd h (by decide))

theorem digit_ne_dot {c : Char} (h : c.isDigit = true) : c ≠ '.' := by
  intro hc; subst hc; exact absurd h (by decide)

theorem digit_ne_comma {c : Char} (h : c.isDigit = true) : c ≠ ',' := by
  intro hc; subst hc; exact absurd h (by decide)

theorem digit_isNumCh {c : Char} (h : c.isDigit = true) : isNumCh c = true := by
  simp [isNumCh, h]

theorem digit_isWordChar {c : Char} (h : c.isDigit = true) : isWordChar c = true := by
  simp [isWordChar, Char.isAlphanum, h]

theorem sep_isNumCh {c : Char} (h : isSepCh c = true) : isNumCh c = true := by
  simp only [isSepCh, Bool.or_eq_true] at h
  rcases h with h | h <;> simp [isNumCh, h]

theorem sep_not_digit {c : Char} (h : isSepCh c = true) : c.isDigit = false := by
  simp only [isSepCh, Bool.or_eq_true, decide_eq_true_eq] at h
  cases hd : c.isDigit with
  | false => rfl
  | true =>
    exfalso
    rcases h with h | h
    · subst h; exact absurd hd (by decide)
    · exact absurd (digit_not_ws hd) (by simp [h])

theorem digitSplits_mem {cs : List Char} {p : List Char × List Char}
    (hp : p ∈ digitSplits cs) :
    p.1 ++ p.2 = cs ∧ p.1 ≠ [] ∧ ∀ c ∈ p.1, c.isDigit = true := by
  induction cs generalizing p with
  | nil => simp [digitSplits] at hp
  | cons c r ih =>
    by_cases hc : c.isDigit = true
    · simp only [digitSplits, hc, if_pos] at hp
      rcases List.mem_append.1 hp with hmem | hmem
      · obtain ⟨q, hq, hqe⟩ := List.mem_map.1 hmem
        obtain ⟨hsplit, hne, hdig⟩ := ih hq
        subst hqe
        refine ⟨by simp [← hsplit], by simp, ?_⟩
        intro x hx
        rcases List.mem_cons.1 hx with hxc | hxq
        · subst hxc; exact hc
        · exact hdig x hxq
      · simp only [List.mem_singleton] at hmem
        subst hmem
        exact ⟨rfl, by simp, by intro x hx; simp at hx; subst hx; exact hc⟩
    · simp only [digitSplits, hc, if_neg, Bool.false_eq_true, not_false_iff] at hp
      simp at hp

theorem group1_some {cs : List Char} {g r : List Char}
    (h : group1 cs = some (g, r)) :
    g ++ r = cs ∧ (∀ tail, TokTail tail → TokTail (g ++ tail)) := by
  match cs with
  | [] => simp [group1] at h
  | [c] => simp [group1] at h
  | [c, d1] => simp [group1] at h
  | [c, d1, d2] =>
    by_cases hs : isSepCh c = true
    · simp [group1, hs] at h
    · by_cases hd : (c.isDigit && d1.isDigit && d2.isDigit) = true
      · simp only [group1, hs, if_neg, Bool.false_eq_true, not_false_iff, hd, if_pos,
          Option.some.injEq, Prod.mk.injEq] at h
        obtain ⟨hg, hr⟩ := h
        subst hg; subst hr
        simp only [Bool.and_eq_true] at hd
        refine ⟨rfl, ?_⟩
        intro tail ht
        exact TokTail.grpNoSep c d1 d2 tail hd.1.1 hd.1.2 hd.2 ht
      · simp [group1, hs, hd] at h
  | c :: d1 :: d2 :: d3 :: rest =>
    by_cases hs : isSepCh c = true
    · by_cases hd : (d1.isDigit && d2.isDigit && d3.isDigit) = true
      · simp only [group1, hs, if_pos, hd, Option.some.injEq, Prod.mk.injEq] at h
        obtain ⟨hg, hr⟩ := h
        subst hg; subst hr
        simp only [Bool.and_eq_true] at hd
        refine ⟨rfl, ?_⟩
        intro tail ht
        exact TokTail.grpSep c d1 d2 d3 tail hs hd.1.1 hd.1.2 hd.2 ht
      · simp [group1, hs, hd] at h
    · by_cases hd : (c.isDigit && d1.isDigit && d2.isDigit) = true
      · simp only [group1, hs, if_neg, Bool.false_eq_true, not_false_iff, hd, if_pos,
          Option.some.injEq, Prod.mk.injEq] at h
        obtain ⟨hg, hr⟩ := h
        subst hg; subst hr
        simp only [Bool.and_eq_true] at hd
        refine ⟨rfl, ?_⟩
        intro tail ht
        exact TokTail.grpNoSep c d1 d2 tail hd.1.1 hd.1.2 hd.2 ht
      · simp [group1, hs, hd] at h

theorem chainAux_mem {f : ℕ} {cs : List Char} {p : List Char × List Char}
    (hp : p ∈ chainAux f cs) :
    p.1 ++ p.2 = cs ∧ ∀ tail, TokTail tail → TokTail (p.1 ++ tail) := by
  induction f generalizing cs p with
  | zero =>
    simp only [chainAux, List.mem_singleton] at hp
    subst hp
    exact ⟨rfl, fun tail ht => ht⟩
  | succ f ih =>
    simp only [chainAux, List.mem_cons] at hp
    rcases hp with hp | hp
    · subst hp
      exact ⟨rfl, fun tail ht => ht⟩
    · cases hg : group1 cs with
      | none => rw [hg] at hp; simp at hp
      | some gr =>
        rw [hg] at hp
        obtain ⟨g, r⟩ := gr
        obtain ⟨q, hq, hqe⟩ := List.mem_map.1 hp
        obtain ⟨hsplit, hclo⟩ := ih hq
        obtain ⟨hgr, hgclo⟩ := group1_some hg
        subst hqe
        constructor
        · simp only [List.append_assoc, hsplit, hgr]
        · intro tail ht
          have h1 : TokTail (q.1 ++ tail) := hclo tail ht
          have h2 : TokTail (g ++ (q.1 ++ tail)) := hgclo (q.1 ++ tail) h1
          simpa [List.append_assoc] using h2

theorem decCands_mem {cs : List Char} {p : List Char × List Char}
    (hp : p ∈ decCands cs) :
    p.1 ++ p.2 = cs ∧ TokTail p.1 := by
  match cs with
  | [] =>
    simp only [decCands, List.nil_append, List.mem_singleton] at hp
    subst hp
    exact ⟨rfl, TokTail.nil⟩
  | c :: r =>
    by_cases hc : c = '.'
    · subst hc
      simp only [decCands, if_pos rfl, List.mem_append, List.mem_singleton] at hp
      rcases hp with hp | hp
      · obtain ⟨q, hq, hqe⟩ := List.mem_map.1 hp
        obtain ⟨hsplit, hne, hdig⟩ := digitSplits_mem hq
        subst hqe
        exact ⟨by simp [hsplit], TokTail.dec q.1 hne hdig⟩
      · subst hp
        exact ⟨rfl, TokTail.nil⟩
    · simp only [decCands, if_neg hc, List.nil_append, List.mem_singleton] at hp
      subst hp
      exact ⟨rfl, TokTail.nil⟩

theorem tryMatch_some {prev : Option Char} {cs t r : List Char}
    (h : tryMatch prev cs = some (t, r)) :
    t ++ r = cs ∧ t ≠ [] ∧ TokenShape t := by
  unfold tryMatch at h
  by_cases hb : startBoundary prev = true
  · rw [if_pos hb] at h
    obtain ⟨d, hd, hinner⟩ := firstSome_eq_some h
    obtain ⟨g, hg, hinner2⟩ := firstSome_eq_some hinner
    obtain ⟨e, he, hinner3⟩ := firstSome_eq_some hinner2
    have hgmem : g ∈ chainAux d.2.length d.2 := List.mem_reverse.1 hg
    have hdmem : d ∈ digitSplits cs ∧ d.1.length ≤ 3 := by
      have := List.mem_filter.1 hd
      exact ⟨this.1, by simpa using this.2⟩
    obtain ⟨hdsplit, hdne, hddig⟩ := digitSplits_mem hdmem.1
    obtain ⟨hgsplit, hgclo⟩ := chainAux_mem hgmem
    obtain ⟨hesplit, hetail⟩ := decCands_mem he
    by_cases hend : endBoundary e.2 = true
    · rw [if_pos hend] at hinner3
      injection hinner3 with hpair
      injection hpair with hteq hreq
      subst hteq; subst hreq
      refine ⟨?_, by simp [hdne], ?_⟩
      · calc (d.1 ++ g.1 ++ e.1) ++ e.2 = d.1 ++ (g.1 ++ (e.1 ++ e.2)) := by
              simp [List.append_assoc]
          _ = d.1 ++ (g.1 ++ g.2) := by rw [hesplit]
          _ = d.1 ++ d.2 := by rw [hgsplit]
          _ = cs := hdsplit
      · exact ⟨d.1, g.1 ++ e.1, by simp [List.append_assoc], hdne, hdmem.2, hddig,
          hgclo e.1 hetail⟩
    · rw [if_neg hend] at hinner3
      exact absurd hinner3 (by simp)
  · rw [if_neg hb] at h
    exact absurd h (by simp)

theorem scanTokens_shape {f : ℕ} {prev : Option Char} {cs t : List Char}
    (h : t ∈ scanTokens f prev cs) : TokenShape t := by
  induction f generalizing prev cs with
  | zero => simp [scanTokens] at h
  | succ f ih =>
    match cs with
    | [] => simp [scanTokens] at h
    | c :: rest =>
      simp only [scanTokens] at h
      cases htm : tryMatch prev (c :: rest) with
      | none =>
        rw [htm] at h
        exact ih h
      | some tr =>
        rw [htm] at h
        obtain ⟨t0, r⟩ := tr
        rcases List.mem_cons.1 h with hteq | hmem
        · subst hteq
          exact (tryMatch_some htm).2.2
        · exact ih hmem

theorem append_split {α : Type} :
    ∀ (zs xs ys ws : List α), xs ++ ys = zs ++ ws → zs.length ≤ xs.length →
      ∃ us, xs = zs ++ us ∧ us ++ ys = ws := by
  intro zs
  induction zs with
  | nil =>
    intro xs ys ws heq _
    exact ⟨xs, by simp, by simpa using heq⟩
  | cons z zs ih =>
    intro xs ys ws heq hlen
    match xs with
    | [] => simp at hlen
    | x :: xs =>
      simp only [List.cons_append] at heq
      injection heq with hxz htail
      subst hxz
      obtain ⟨us, h1, h2⟩ := ih xs ys ws htail (by simpa using hlen)
      exact ⟨us, by simp [h1], h2⟩

theorem tokTail_ws {u : List Char} (h : TokTail u) :
    ∀ u1 w u2, u = u1 ++ w :: u2 → w.isWhitespace = true →
      ∃ a b c u3, u2 = a :: b :: c :: u3 ∧
        a.isDigit = true ∧ b.isDigit = true ∧ c.isDigit = true := by
  induction h with
  | nil =>
    intro u1 w u2 heq _
    exact absurd heq.symm (by simp)
  | dec ds hne hds =>
    intro u1 w u2 heq hw
    match u1 with
    | [] =>
      simp only [List.nil_append] at heq
      injection heq with hw2 _
      subst hw2
      exact absurd hw (by decide)
    | x :: u1 =>
      simp only [List.cons_append] at heq
      injection heq with _ htail
      have hwmem : w ∈ ds := htail ▸ List.mem_append.2 (Or.inr (List.mem_cons_self w u2))
      exact absurd hw (by simp [digit_not_ws (hds w hwmem)])
  | grpSep c d1 d2 d3 rest hc h1 h2 h3 ht ih =>
    intro u1 w u2 heq hw
    match u1 with
    | [] =>
      simp only [List.nil_append] at heq
      injection heq with hwc htail
      exact ⟨d1, d2, d3, rest, htail.symm, h1, h2, h3⟩
    | x1 :: u1 =>
      simp only [List.cons_append] at heq
      injection heq with _ heq
      match u1 with
      | [] =>
        simp only [List.nil_append] at heq
        injection heq with hwd _
        subst hwd
        exact absurd hw (by simp [digit_not_ws h1])
      | x2 :: u1 =>
        simp only [List.cons_append] at heq
        injection heq with _ heq
        match u1 with
        | [] =>
          simp only [List.nil_append] at heq
          injection heq with hwd _
          subst hwd
          exact absurd hw (by simp [digit_not_ws h2])
        | x3 :: u1 =>
          simp only [List.cons_append] at heq
          injection heq with _ heq
          match u1 with
          | [] =>
            simp only [List.nil_append] at heq
            injection heq with hwd _
            subst hwd
            exact absurd hw (by simp [digit_not_ws h3])
          | x4 :: u1 =>
            simp only [List.cons_append] at heq
            injection heq with _ heq
            exact ih u1 w u2 heq hw
  | grpNoSep d1 d2 d3 rest h1 h2 h3 ht ih =>
    intro u1 w u2 heq hw
    match u1 with
    | [] =>
      simp only [List.nil_append] at heq
      injection heq with hwd _
      subst hwd
      exact absurd hw (by simp [digit_not_ws h1])
    | x1 :: u1 =>
      simp only [List.cons_append] at heq
      injection heq with _ heq
      match u1 with
      | [] =>
        simp only [List.nil_append] at heq
        injection heq with hwd _
        subst hwd
        exact absurd hw (by simp [digit_not_ws h2])
      | x2 :: u1 =>
        simp only [List.cons_append] at heq
        injection heq with _ heq
        match u1 with
        | [] =>
          simp only [List.nil_append] at heq
          injection heq with hwd _
          subst hwd
          exact absurd hw (by simp [digit_not_ws h3])
        | x3 :: u1 =>
          simp only [List.cons_append] at heq
          injection heq with _ heq
          exact ih u1 w u2 heq hw

theorem tokenShape_ws {t : List Char} (h : TokenShape t) :
    ∀ t1 w t2, t = t1 ++ w :: t2 → w.isWhitespace = true →
      ∃ a b c t3, t2 = a :: b :: c :: t3 ∧
        a.isDigit = true ∧ b.isDigit = true ∧ c.isDigit = true := by
  obtain ⟨d, rest, hteq, hdne, _, hddig, htail⟩ := h
  intro t1 w t2 heq hw
  subst hteq
  by_cases hlen : t1.length ≤ d.length
  · obtain ⟨us, hd2, hus⟩ := append_split t1 d rest (w :: t2) heq hlen
    match us with
    | [] =>
      simp only [List.nil_append] at hus
      exact tokTail_ws htail [] w t2 (by simpa using hus) hw
    | u :: us =>
      simp only [List.cons_append] at hus
      injection hus with huw htail2
      have hwmem : u ∈ d := hd2 ▸ List.mem_append.2 (Or.inr (List.mem_cons_self u us))
      rw [huw] at hwmem
      exact absurd hw (by simp [digit_not_ws (hddig w hwmem)])
  · push_neg at hlen
    obtain ⟨us, ht1, hus⟩ := append_split d t1 (w :: t2) rest heq.symm (le_of_lt hlen)
    exact tokTail_ws htail us w t2 hus.symm hw

/-! ## Cleanup and parsing of matched tokens -/

theorem digit_ne_space {c : Char} (h : c.isDigit = true) : c ≠ ' ' := by
  intro hc; subst hc; exact absurd h (by decide)

theorem takeWhile_append_all {p : Char → Bool} {as : List Char} (rest : List Char)
    (h : ∀ c ∈ as, p c = true) :
    (as ++ rest).takeWhile p = as ++ rest.takeWhile p := by
  induction as with
  | nil => simp
  | cons a as ih =>
    have ha : p a = true := h a (List.mem_cons_self a as)
    simp only [List.cons_append, List.takeWhile_cons, ha, if_pos]
    rw [ih (fun c hc => h c (List.mem_cons_of_mem a hc))]

theorem dropWhile_append_all {p : Char → Bool} {as : List Char} (rest : List Char)
    (h : ∀ c ∈ as, p c = true) :
    (as ++ rest).dropWhile p = rest.dropWhile p := by
  induction as with
  | nil => simp
  | cons a as ih =>
    have ha : p a = true := h a (List.mem_cons_self a as)
    simp only [List.cons_append, List.dropWhile_cons, ha, if_pos]
    exact ih (fun c hc => h c (List.mem_cons_of_mem a hc))

theorem dropWhile_eq_self_of_none {p : Char → Bool} {s : List Char}
    (h : ∀ c ∈ s, p c = false) : s.dropWhile p = s := by
  match s with
  | [] => rfl
  | c :: r =>
    have hc : p c = false := h c (List.mem_cons_self c r)
    simp [List.dropWhile_cons, hc]

theorem trimWS_eq_self {s : List Char} (h : ∀ c ∈ s, c.isWhitespace = false) :
    trimWS s = s := by
  unfold trimWS
  rw [dropWhile_eq_self_of_none h,
    dropWhile_eq_self_of_none (fun c hc => h c (List.mem_reverse.1 hc)), List.reverse_reverse]

theorem cleanSeps_digits {l : List Char} (h : ∀ c ∈ l, c.isDigit = true) :
    cleanSeps l = l := by
  unfold cleanSeps
  apply List.filter_eq_self.2
  intro c hc
  have hd := h c hc
  simp [digit_ne_comma hd, digit_ne_space hd]

/-- Shape of a clean decimal suffix: nothing, or a dot followed by at least
one digit. -/
def DecShape (de : List Char) : Prop :=
  de = [] ∨ ∃ fs, de = '.' :: fs ∧ fs ≠ [] ∧ ∀ c ∈ fs, c.isDigit = true

theorem tokTail_clean {u : List Char} (h : TokTail u)
    (hsp : ∀ c ∈ u, c.isWhitespace = true → c = ' ') :
    ∃ es de, cleanSeps u = es ++ de ∧ (∀ c ∈ es, c.isDigit = true) ∧ DecShape de := by
  induction h with
  | nil => exact ⟨[], [], rfl, by simp, Or.inl rfl⟩
  | dec ds hne hds =>
    refine ⟨[], '.' :: ds, ?_, by simp, Or.inr ⟨ds, rfl, hne, hds⟩⟩
    simp only [cleanSeps, List.filter_cons]
    rw [show (!('.' = ',' || '.' = ' ') : Bool) = true by decide]
    simp only [if_pos]
    rw [show List.filter (fun c => !(c = ',' || c = ' ')) ds = ds from
      List.filter_eq_self.2 (fun c hc => by
        have hd := hds c hc
        simp [digit_ne_comma hd, digit_ne_space hd])]
    simp
  | grpSep c d1 d2 d3 rest hc h1 h2 h3 ht ih =>
    have hsp' : ∀ x ∈ rest, x.isWhitespace = true → x = ' ' := fun x hx hw =>
      hsp x (by simp [hx]) hw
    obtain ⟨es, de, hclean, hes, hde⟩ := ih hsp'
    have hcgone : (!(c = ',' || c = ' ') : Bool) = false := by
      simp only [isSepCh, Bool.or_eq_true, decide_eq_true_eq] at hc
      rcases hc with hc | hc
      · simp [hc]
      · have := hsp c (by simp) hc
        simp [this]
    refine ⟨d1 :: d2 :: d3 :: es, de, ?_, ?_, hde⟩
    · simp only [cleanSeps, List.filter_cons, hcgone]
      rw [show (!(d1 = ',' || d1 = ' ') : Bool) = true by
          simp [digit_ne_comma h1, digit_ne_space h1],
        show (!(d2 = ',' || d2 = ' ') : Bool) = true by
          simp [digit_ne_comma h2, digit_ne_space h2],
        show (!(d3 = ',' || d3 = ' ') : Bool) = true by
          simp [digit_ne_comma h3, digit_ne_space h3]]
      simp only [if_pos, if_neg]
      unfold cleanSeps at hclean
      simp only [Bool.not_or] at hclean
      simp [hclean]
    · intro x hx
      rcases List.mem_cons.1 hx with hx1 | hx
      · subst hx1; exact h1
      rcases List.mem_cons.1 hx with hx1 | hx
      · subst hx1; exact h2
      rcases List.mem_cons.1 hx with hx1 | hx
      · subst hx1; exact h3
      · exact hes x hx
  | grpNoSep d1 d2 d3 rest h1 h2 h3 ht ih =>
    have hsp' : ∀ x ∈ rest, x.isWhitespace = true → x = ' ' := fun x hx hw =>
      hsp x (by simp [hx]) hw
    obtain ⟨es, de, hclean, hes, hde⟩ := ih hsp'
    refine ⟨d1 :: d2 :: d3 :: es, de, ?_, ?_, hde⟩
    · simp only [cleanSeps, List.filter_cons]
      rw [show (!(d1 = ',' || d1 = ' ') : Bool) = true by
          simp [digit_ne_comma h1, digit_ne_space h1],
        show (!(d2 = ',' || d2 = ' ') : Bool) = true by
          simp [digit_ne_comma h2, digit_ne_space h2],
        show (!(d3 = ',' || d3 = ' ') : Bool) = true by
          simp [digit_ne_comma h3, digit_ne_space h3]]
      simp only [if_pos]
      unfold cleanSeps at hclean
      simp only [Bool.not_or] at hclean
      simp [hclean]
    · intro x hx
      rcases List.mem_cons.1 hx with hx1 | hx
      · subst hx1; exact h1
      rcases List.mem_cons.1 hx with hx1 | hx
      · subst hx1; exact h2
      rcases List.mem_cons.1 hx with hx1 | hx
      · subst hx1; exact h3
      · exact hes x hx

theorem parseFloat_digits_dec {as de : List Char} (hne : as ≠ [])
    (has : ∀ c ∈ as, c.isDigit = true) (hde : DecShape de) :
    ∃ v, parseFloat (as ++ de) = some v := by
  have hnws : ∀ c ∈ as ++ de, c.isWhitespace = false := by
    intro c hc
    rcases List.mem_append.1 hc with hc | hc
    · exact digit_not_ws (has c hc)
    · rcases hde with hde | ⟨fs, hfs, _, hfsd⟩
      · subst hde; simp at hc
      · subst hfs
        rcases List.mem_cons.1 hc with hc | hc
        · subst hc; decide
        · exact digit_not_ws (hfsd c hc)
  rcases hde with hde | ⟨fs, hfs, hfne, hfsd⟩
  · subst hde
    refine ⟨(digitsToNat as : ℚ), ?_⟩
    unfold parseFloat
    rw [List.append_nil, trimWS_eq_self (by simpa using hnws)]
    rw [if_neg hne, if_pos (List.all_eq_true.2 has)]
  · subst hfs
    refine ⟨mkRat (digitsToNat as * 10 ^ fs.length + digitsToNat fs) (10 ^ fs.length), ?_⟩
    unfold parseFloat
    rw [trimWS_eq_self hnws]
    have hsne : as ++ '.' :: fs ≠ [] := by simp
    have hnotall : (as ++ '.' :: fs).all Char.isDigit = false := by
      cases hall : (as ++ '.' :: fs).all Char.isDigit with
      | false => rfl
      | true =>
        exfalso
        have := List.all_eq_true.1 hall '.' (List.mem_append.2 (Or.inr (by simp)))
        exact absurd this (by decide)
    rw [if_neg hsne, hnotall]
    simp only [Bool.false_eq_true, if_neg, if_false]
    have htake : (as ++ '.' :: fs).takeWhile (fun c => !(c = '.')) = as := by
      rw [takeWhile_append_all ('.' :: fs)
        (fun c hc => by simp [digit_ne_dot (has c hc)])]
      simp [List.takeWhile_cons]
    have hdrop : (as ++ '.' :: fs).dropWhile (fun c => !(c = '.')) = '.' :: fs := by
      rw [dropWhile_append_all ('.' :: fs)
        (fun c hc => by simp [digit_ne_dot (has c hc)])]
      simp [List.dropWhile_cons]
    rw [htake, hdrop]
    have hasne : as.isEmpty = false := by
      cases as with
      | nil => exact absurd rfl hne
      | cons a l => rfl
    have hcond : (as.all Char.isDigit && fs.all Char.isDigit &&
        !(as.isEmpty && fs.isEmpty)) = true := by
      rw [List.all_eq_true.2 has, List.all_eq_true.2 hfsd, hasne]
      rfl
    show (if as.all Char.isDigit && fs.all Char.isDigit && !(as.isEmpty && fs.isEmpty) then
        some (mkRat (digitsToNat as * 10 ^ fs.length + digitsToNat fs) (10 ^ fs.length))
      else none) =
      some (mkRat (digitsToNat as * 10 ^ fs.length + digitsToNat fs) (10 ^ fs.length))
    rw [hcond]
    rfl

theorem tokenShape_parse {t : List Char} (h : TokenShape t)
    (hsp : ∀ c ∈ t, c.isWhitespace = true → c = ' ') :
    ∃ v, parseFloat (cleanSeps t) = some v := by
  obtain ⟨d, rest, hteq, hdne, _, hddig, htail⟩ := h
  subst hteq
  have hsp2 : ∀ c ∈ rest, c.isWhitespace = true → c = ' ' := fun c hc hw =>
    hsp c (List.mem_append.2 (Or.inr hc)) hw
  obtain ⟨es, de, hclean, hes, hde⟩ := tokTail_clean htail hsp2
  have hsplit : cleanSeps (d ++ rest) = (d ++ es) ++ de := by
    unfold cleanSeps
    rw [List.filter_append]
    have h1 : List.filter (fun c => !(c = ',' || c = ' ')) d = d :=
      cleanSeps_digits hddig
    unfold cleanSeps at hclean
    rw [h1, hclean, List.append_assoc]
  rw [hsplit]
  exact parseFloat_digits_dec (by simp [hdne])
    (fun c hc => (List.mem_append.1 hc).elim (hddig c) (hes c)) hde

/-! ## Grammar lemmas -/

theorem tokTailCheck_implies : ∀ (f : ℕ) (u : List Char),
    tokTailCheck f u = true → TokTail u := by
  intro f
  induction f with
  | zero =>
    intro u h
    match u with
    | [] => exact TokTail.nil
    | c :: cs => simp [tokTailCheck] at h
  | succ f ih =>
    intro u h
    match u with
    | [] => exact TokTail.nil
    | c :: cs =>
      simp only [tokTailCheck, Bool.or_eq_true, Bool.and_eq_true] at h
      rcases h with ⟨⟨hdot, hne⟩, hall⟩ | h
      · have hc : c = '.' := by simpa using hdot
        subst hc
        exact TokTail.dec cs (by simpa using hne) (List.all_eq_true.1 hall)
      · cases hg : group1 (c :: cs) with
        | none => rw [hg] at h; exact absurd h (by simp)
        | some p =>
          rw [hg] at h
          obtain ⟨g, r⟩ := p
          obtain ⟨hsplit, hclo⟩ := group1_some hg
          have := hclo r (ih r h)
          rwa [hsplit] at this

theorem tokenGrammar_shape {s : List Char} (h : tokenGrammar s = true) :
    TokenShape s := by
  unfold tokenGrammar at h
  obtain ⟨p, hp, hcheck⟩ := List.any_eq_true.1 h
  have hf := List.mem_filter.1 hp
  obtain ⟨hsplit, hne, hdig⟩ := digitSplits_mem hf.1
  exact ⟨p.1, p.2, hsplit.symm, hne, by simpa using hf.2, hdig,
    tokTailCheck_implies p.2.length p.2 hcheck⟩

theorem tokTail_numCh {u : List Char} (h : TokTail u) :
    ∀ c ∈ u, isNumCh c = true := by
  induction h with
  | nil => simp
  | dec ds hne hds =>
    intro c hc
    rcases List.mem_cons.1 hc with hc | hc
    · subst hc; decide
    · exact digit_isNumCh (hds c hc)
  | grpSep c0 d1 d2 d3 rest hc0 h1 h2 h3 ht ih =>
    intro c hc
    rcases List.mem_cons.1 hc with hc | hc
    · subst hc; exact sep_isNumCh hc0
    rcases List.mem_cons.1 hc with hc | hc
    · subst hc; exact digit_isNumCh h1
    rcases List.mem_cons.1 hc with hc | hc
    · subst hc; exact digit_isNumCh h2
    rcases List.mem_cons.1 hc with hc | hc
    · subst hc; exact digit_isNumCh h3
    · exact ih c hc
  | grpNoSep d1 d2 d3 rest h1 h2 h3 ht ih =>
    intro c hc
    rcases List.mem_cons.1 hc with hc | hc
    · subst hc; exact digit_isNumCh h1
    rcases List.mem_cons.1 hc with hc | hc
    · subst hc; exact digit_isNumCh h2
    rcases List.mem_cons.1 hc with hc | hc
    · subst hc; exact digit_isNumCh h3
    · exact ih c hc

theorem getLast?_cons_of_ne {α : Type} (c : α) {l : List α} (h : l ≠ []) :
    (c :: l).getLast? = l.getLast? := by
  match l with
  | [] => exact absurd rfl h
  | x :: l => exact List.getLast?_cons_cons

theorem getLast?_append_right {α : Type} :
    ∀ (l1 : List α) {l2 : List α}, l2 ≠ [] → (l1 ++ l2).getLast? = l2.getLast? := by
  intro l1
  induction l1 with
  | nil => intro l2 _; simp
  | cons c l1 ih =>
    intro l2 h2
    rw [List.cons_append, getLast?_cons_of_ne c (by simp [h2]), ih h2]

theorem last_mem {l : List Char} (h : l ≠ []) :
    ∃ dd, l.getLast? = some dd ∧ dd ∈ l := by
  induction l with
  | nil => exact absurd rfl h
  | cons c l ih =>
    match l with
    | [] => exact ⟨c, rfl, by simp⟩
    | x :: l2 =>
      obtain ⟨dd, hgl, hmem⟩ := ih (by simp)
      exact ⟨dd, (List.getLast?_cons_cons).trans hgl,
        List.mem_cons_of_mem c hmem⟩

theorem tokTail_last_digit {u : List Char} (h : TokTail u) (hne : u ≠ []) :
    ∃ dd, u.getLast? = some dd ∧ dd.isDigit = true := by
  induction h with
  | nil => exact absurd rfl hne
  | dec ds hdne hds =>
    obtain ⟨dd, hgl, hmem⟩ := last_mem hdne
    exact ⟨dd, (getLast?_cons_of_ne '.' hdne).trans hgl, hds dd hmem⟩
  | grpSep c d1 d2 d3 rest hc h1 h2 h3 ht ih =>
    by_cases hrest : rest = []
    · subst hrest
      exact ⟨d3, rfl, h3⟩
    · obtain ⟨dd, hgl, hdig⟩ := ih hrest
      refine ⟨dd, ?_, hdig⟩
      rw [getLast?_cons_of_ne c (by simp), getLast?_cons_of_ne d1 (by simp),
        getLast?_cons_of_ne d2 (by simp [hrest]), getLast?_cons_of_ne d3 hrest, hgl]
  | grpNoSep d1 d2 d3 rest h1 h2 h3 ht ih =>
    by_cases hrest : rest = []
    · subst hrest
      exact ⟨d3, rfl, h3⟩
    · obtain ⟨dd, hgl, hdig⟩ := ih hrest
      refine ⟨dd, ?_, hdig⟩
      rw [getLast?_cons_of_ne d1 (by simp [hrest]), getLast?_cons_of_ne d2 (by simp [hrest]),
        getLast?_cons_of_ne d3 hrest, hgl]

theorem tokenShape_numGrammar {s : List Char} (h : TokenShape s) :
    numGrammar s = true := by
  obtain ⟨d, rest, hs, hdne, _, hddig, htail⟩ := h
  subst hs
  by_cases hrest : rest = []
  · subst hrest
    unfold numGrammar
    rw [Bool.or_eq_true]
    right
    rw [List.append_nil]
    match d with
    | [] => exact absurd rfl hdne
    | c :: l =>
      simp only [List.isEmpty_cons, Bool.not_false, Bool.true_and]
      exact List.all_eq_true.2 hddig
  · match d with
    | [] => exact absurd rfl hdne
    | c0 :: d2 =>
      unfold numGrammar
      rw [Bool.or_eq_true]
      left
      simp only [List.cons_append]
      have hlast : ((c0 :: d2) ++ rest).getLast? = rest.getLast? :=
        getLast?_append_right (c0 :: d2) hrest
      obtain ⟨dd, hgl, hdig⟩ := tokTail_last_digit htail hrest
      rw [List.cons_append] at hlast
      have hlen : 2 ≤ (c0 :: (d2 ++ rest)).length := by
        match rest with
        | [] => exact absurd rfl hrest
        | x :: r2 => simp [List.length_append]; omega
      have hall : (c0 :: (d2 ++ rest)).all isNumCh = true := by
        apply List.all_eq_true.2
        intro x hx
        rcases List.mem_cons.1 hx with hx | hx
        · subst hx; exact digit_isNumCh (hddig x (by simp))
        · rcases List.mem_append.1 hx with hx | hx
          · exact digit_isNumCh (hddig x (by simp [hx]))
          · exact tokTail_numCh htail x hx
      have hc0 : c0.isDigit = true := hddig c0 (by simp)
      rw [hlast, hgl]
      show (c0.isDigit && decide (2 ≤ (c0 :: (d2 ++ rest)).length) &&
        (c0 :: (d2 ++ rest)).all isNumCh && dd.isDigit) = true
      rw [hc0, hall, hdig, decide_eq_true hlen]
      rfl

/-! ## Claims -/

theorem resolveMatch_matched {entered : ℚ} {cargo : Option ℚ} {qtys : List ℚ} {v : ℚ}
    (h : (resolveMatch entered cargo qtys).2 = some v) : cargo = some v ∨ v ∈ qtys := by
  unfold resolveMatch at h
  cases cargo with
  | none =>
    cases hf : List.find? (fun q => decide (rabs (qsub q entered) < tolerance)) qtys with
    | none => rw [hf] at h; simp at h
    | some q =>
      rw [hf] at h
      have hq : q = v := by simpa using h
      exact Or.inr (hq ▸ List.mem_of_find?_eq_some hf)
  | some cw =>
    by_cases hc : rabs (qsub cw entered) < tolerance
    · have hcw : cw = v := by simpa [hc] using h
      exact Or.inl (by rw [hcw])
    · cases hf : List.find? (fun q => decide (rabs (qsub q entered) < tolerance)) qtys with
      | none => rw [hf] at h; simp [hc] at h
      | some q =>
        rw [hf] at h
        have hq : q = v := by simpa [hc] using h
        exact Or.inr (hq ▸ List.mem_of_find?_eq_some hf)

/-- C4: the resolver's tolerance is a strict absolute-difference threshold:
for entered quantity 100.00, an extracted 100.009 yields passed = true and
an extracted 100.02 yields passed = false; in general a single candidate
matches exactly when `|candidate − entered| < 1/100`, never at equality. -/
theorem c4_tolerance_strict :
    resolveMatch 100 none [mkRat 100009 1000] = (true, some (mkRat 100009 1000)) ∧
    resolveMatch 100 none [mkRat 10002 100] = (false, none) ∧
    ∀ entered c : ℚ, resolveMatch entered none [c] =
      if |c - entered| < 1 / 100 then (true, some c) else (false, none) := by
  refine ⟨by decide, by decide, ?_⟩
  intro entered c
  by_cases h : |c - entered| < 1 / 100
  · have hp : decide (rabs (qsub c entered) < tolerance) = true := by
      rw [qsub_eq_sub, rabs_eq_abs, tolerance_eq]
      exact decide_eq_true h
    rw [if_pos h]
    simp [resolveMatch, List.find?, hp]
  · have hp : decide (rabs (qsub c entered) < tolerance) = false := by
      rw [qsub_eq_sub, rabs_eq_abs, tolerance_eq]
      exact decide_eq_false h
    rw [if_neg h]
    simp [resolveMatch, List.find?, hp]

/-- A scorer answer that judges the entered quantity valid but carries no
`matched_value` (the model returned `null` for it). -/
def scorerYesNoValue : ScorerResult :=
  { is_valid := true, matched_value := none, confidence := 80,
    reasoning := "matches", field_location := "doc" }

/-- C1 is falsified: the scorer returned a result with
`matched_value = None`; the claim says the final `matched_value` equals the
scorer value (i.e. null), but the code keeps the baseline value 42. -/
theorem c1_counterexample :
    scorerYesNoValue.matched_value = none ∧
    (validate_core ("DISCHARGED: 42".toList) 42 (some scorerYesNoValue)).status = "success" ∧
    (validate_core ("DISCHARGED: 42".toList) 42
      (some scorerYesNoValue)).matched_quantity = some 42 := by
  exact ⟨rfl, by decide, by decide⟩

/-- C1 (amended): when the scorer returns a result, the verdict's pass/fail
status always equals the scorer's `is_valid`; the reported matched value is
the scorer's `matched_value` when that is non-null, otherwise (with
`is_valid` true) the baseline resolver's matched value survives, and a
failing verdict reports no matched value at all. -/
theorem c1_scorer_override (text : List Char) (entered : ℚ) (r : ScorerResult) :
    (validate_core text entered (some r)).status =
      (if r.is_valid then "success" else "error") ∧
    (validate_core text entered (some r)).matched_quantity =
      (if r.is_valid then
        (match r.matched_value with
         | some v => some v
         | none => (resolveMatch entered (extract_cargo_discharged_weight text)
             (extract_quantities_from_text text)).2)
       else none) := by
  unfold validate_core applyScorer buildResult
  cases hv : r.is_valid <;> cases hm : r.matched_value <;> simp [hv, hm]

/-- C2 is falsified: for the text `DISCHARGED: 12,34` and entered quantity
1234 with no scorer, the verdict's matched value is 1234, which is in
neither the tokenizer's extracted quantities (12 and 34) nor any scorer
result — it comes from the Field Locator's more permissive capture. -/
theorem c2_counterexample :
    (validate_core ("DISCHARGED: 12,34".toList) 1234 none).matched_quantity = some 1234 ∧
    (1234 : ℚ) ∉ extract_quantities_from_text ("DISCHARGED: 12,34".toList) ∧
    (validate_core ("DISCHARGED: 12,34".toList) 1234 none).ai_agent = none := by
  exact ⟨by decide, by decide, by decide⟩

/-- C2 (amended): a non-null matched value is always attributable to one of
THREE sources: an element of the tokenizer's extracted quantities, the
value located by the Field Locator, or the scorer's `matched_value` when
the scorer overrode the decision. -/
theorem c2_matched_value_sources (text : List Char) (entered : ℚ)
    (ai : Option ScorerResult) (v : ℚ)
    (h : (validate_core text entered ai).matched_quantity = some v) :
    v ∈ extract_quantities_from_text text ∨
      extract_cargo_discharged_weight text = some v ∨
      ∃ r, ai = some r ∧ r.matched_value = some v := by
  unfold validate_core applyScorer buildResult at h
  simp only [] at h
  cases ai with
  | none =>
    cases hb : (resolveMatch entered (extract_cargo_discharged_weight text)
        (extract_quantities_from_text text)).1 with
    | false => simp [hb] at h
    | true =>
      simp only [hb, if_true] at h
      rcases resolveMatch_matched h with hc | hm
      · exact Or.inr (Or.inl hc)
      · exact Or.inl hm
  | some r =>
    cases hv : r.is_valid with
    | false => simp [hv] at h
    | true =>
      simp only [hv, if_true] at h
      cases hm : r.matched_value with
      | some w =>
        simp only [hm, Option.some.injEq] at h
        exact Or.inr (Or.inr ⟨r, rfl, by rw [hm, h]⟩)
      | none =>
        simp only [hm] at h
        rcases resolveMatch_matched h with hc | hmem
        · exact Or.inr (Or.inl hc)
        · exact Or.inl hmem

theorem c2_witness :
    (1234 : ℚ) ∈ extract_quantities_from_text ("DISCHARGED: 12,34".toList) ∨
      extract_cargo_discharged_weight ("DISCHARGED: 12,34".toList) = some 1234 ∨
      ∃ r, (none : Option ScorerResult) = some r ∧ r.matched_value = some 1234 :=
  c2_matched_value_sources ("DISCHARGED: 12,34".toList) 1234 none 1234 (by decide)

/-- C5 is falsified: this text contains both "TOTAL DISCHARGED: 500" and
"WEIGHT OF CARGO DISCHARGED: 700" as substrings, yet the Field Locator
returns 700800, not 700 — the greedy numeric capture of pattern 1 absorbs
the adjacent "800". -/
theorem c5_counterexample :
    ("TOTAL DISCHARGED: 500 WEIGHT OF CARGO DISCHARGED: 700 800".toList =
      "TOTAL DISCHARGED: 500".toList ++ " WEIGHT OF CARGO DISCHARGED: 700 800".toList) ∧
    ("TOTAL DISCHARGED: 500 WEIGHT OF CARGO DISCHARGED: 700 800".toList =
      "TOTAL DISCHARGED: 500 ".toList ++ "WEIGHT OF CARGO DISCHARGED: 700".toList ++
        " 800".toList) ∧
    extract_cargo_discharged_weight
      ("TOTAL DISCHARGED: 500 WEIGHT OF CARGO DISCHARGED: 700 800".toList) = some 700800 ∧
    (700800 : ℚ) ≠ 700 := by
  exact ⟨by decide, by decide, by decide, by decide⟩

/-- C5 (amended): for the text consisting of exactly the two fields
"TOTAL DISCHARGED: 500" and "WEIGHT OF CARGO DISCHARGED: 700" (in either
order, space-separated), the Field Locator returns 700: the
WEIGHT-OF-CARGO-DISCHARGED pattern (priority 1) outranks the
TOTAL-DISCHARGED pattern (priority 6) regardless of position. -/
theorem c5_field_priority :
    extract_cargo_discharged_weight
      ("TOTAL DISCHARGED: 500 WEIGHT OF CARGO DISCHARGED: 700".toList) = some 700 ∧
    extract_cargo_discharged_weight
      ("WEIGHT OF CARGO DISCHARGED: 700 TOTAL DISCHARGED: 500".toList) = some 700 := by
  exact ⟨by decide, by decide⟩

/-- C10: if a pattern's first match anywhere in the text captures a numeric
string whose cleaned form fails to parse, the locator abandons that
pattern entirely and continues with the remaining patterns on the same
text — it never revisits a later occurrence of the same pattern. -/
theorem c10_pattern_skip (p : List Char → Option (List Char))
    (ps : List (List Char → Option (List Char))) (cs raw : List Char)
    (h1 : searchCapture p cs = some raw)
    (h2 : parseFloat (cleanSeps raw) = none) :
    locateFrom (p :: ps) cs = locateFrom ps cs := by
  simp only [locateFrom, h1, h2]

theorem c10_witness :
    locateFrom cargoPatterns
      ("WEIGHT OF CARGO DISCHARGED: 1.2.3 TOTAL DISCHARGED: 500 WEIGHT OF CARGO DISCHARGED: 700".toList) =
      locateFrom [pat2, pat3, pat4, pat5, pat6, pat7, pat8]
        ("WEIGHT OF CARGO DISCHARGED: 1.2.3 TOTAL DISCHARGED: 500 WEIGHT OF CARGO DISCHARGED: 700".toList) ∧
    extract_cargo_discharged_weight
      ("WEIGHT OF CARGO DISCHARGED: 1.2.3 TOTAL DISCHARGED: 500 WEIGHT OF CARGO DISCHARGED: 700".toList) = some 500 ∧
    searchCapture pat1 ("WEIGHT OF CARGO DISCHARGED: 700".toList) = some ("700".toList) :=
  ⟨c10_pattern_skip pat1 [pat2, pat3, pat4, pat5, pat6, pat7, pat8] _ ("1.2.3".toList)
      (by decide) (by decide),
    by decide, by decide⟩

/-- C6: a rate-limit failure is retried at most twice, sleeping 15 then 30
seconds; two rate-limit failures followed by a non-rate-limit failure
exhaust the loop and the scorer returns no result; for any outcome
sequence the sleeps performed are a prefix of [15, 30]; and with no scorer
result the baseline match outcome passes through the override step
unchanged (a scorer failure never aborts the validation, which still
produces its payload). -/
theorem c6_scorer_retry_fallback (outcomes : ℕ → CallOutcome)
    (h0 : outcomes 0 = CallOutcome.rateLimit)
    (h1 : outcomes 1 = CallOutcome.rateLimit)
    (h2 : outcomes 2 = CallOutcome.otherErr) :
    agentValidate true outcomes = (none, [15, 30]) ∧
    (∀ oc : ℕ → CallOutcome, ∃ n, n ≤ 2 ∧ (agentValidate true oc).2 = [15, 30].take n) ∧
    (∀ (mf : Bool) (mv : Option ℚ), applyScorer mf mv none = (mf, mv)) := by
  refine ⟨?_, ?_, fun mf mv => rfl⟩
  · show (match attemptLoop outcomes 0 3 [] with
      | (some raw, w) => (some (processAiResponse raw), w)
      | (none, w) => ((none : Option ScorerResult), w)) = (none, [15, 30])
    show (match attemptLoop outcomes 0 (2 + 1) [] with
      | (some raw, w) => (some (processAiResponse raw), w)
      | (none, w) => ((none : Option ScorerResult), w)) = (none, [15, 30])
    rw [attemptLoop, h0]
    norm_num
    rw [attemptLoop, h1]
    norm_num
    rw [attemptLoop, h2]
  · intro oc
    cases ho0 : oc 0 with
    | ok r =>
      refine ⟨0, by omega, ?_⟩
      show (agentValidate true oc).2 = []
      unfold agentValidate
      rw [if_pos rfl]
      show (match attemptLoop oc 0 (2 + 1) [] with
        | (some raw, w) => (some (processAiResponse raw), w)
        | (none, w) => ((none : Option ScorerResult), w)).2 = []
      rw [attemptLoop, ho0]
    | otherErr =>
      refine ⟨0, by omega, ?_⟩
      show (agentValidate true oc).2 = []
      unfold agentValidate
      rw [if_pos rfl]
      show (match attemptLoop oc 0 (2 + 1) [] with
        | (some raw, w) => (some (processAiResponse raw), w)
        | (none, w) => ((none : Option ScorerResult), w)).2 = []
      rw [attemptLoop, ho0]
    | rateLimit =>
      cases ho1 : oc 1 with
      | ok r =>
        refine ⟨1, by omega, ?_⟩
        show (agentValidate true oc).2 = [15]
        unfold agentValidate
        rw [if_pos rfl]
        show (match attemptLoop oc 0 (2 + 1) [] with
          | (some raw, w) => (some (processAiResponse raw), w)
          | (none, w) => ((none : Option ScorerResult), w)).2 = [15]
        rw [attemptLoop, ho0]
        norm_num
        rw [attemptLoop, ho1]
      | otherErr =>
        refine ⟨1, by omega, ?_⟩
        show (agentValidate true oc).2 = [15]
        unfold agentValidate
        rw [if_pos rfl]
        show (match attemptLoop oc 0 (2 + 1) [] with
          | (some raw, w) => (some (processAiResponse raw), w)
          | (none, w) => ((none : Option ScorerResult), w)).2 = [15]
        rw [attemptLoop, ho0]
        norm_num
        rw [attemptLoop, ho1]
      | rateLimit =>
        refine ⟨2, by omega, ?_⟩
        show (agentValidate true oc).2 = [15, 30]
        unfold agentValidate
        rw [if_pos rfl]
        show (match attemptLoop oc 0 (2 + 1) [] with
          | (some raw, w) => (some (processAiResponse raw), w)
          | (none, w) => ((none : Option ScorerResult), w)).2 = [15, 30]
        rw [attemptLoop, ho0]
        norm_num
        rw [attemptLoop, ho1]
        norm_num
        rw [attemptLoop]
        cases ho2 : oc 2 <;> simp [ho2]

theorem c6_witness :
    agentValidate true
      (fun n => if n < 2 then CallOutcome.rateLimit else CallOutcome.otherErr) =
      (none, [15, 30]) :=
  (c6_scorer_retry_fallback _ (by decide) (by decide) (by decide)).1

theorem resolveMatch_none {entered : ℚ} {cargo : Option ℚ} {qtys : List ℚ}
    (hq : ∀ q ∈ qtys, ¬(|q - entered| < 1 / 100))
    (hc : ∀ cw, cargo = some cw → ¬(|cw - entered| < 1 / 100)) :
    resolveMatch entered cargo qtys = (false, none) := by
  have hfind : List.find? (fun q => decide (rabs (qsub q entered) < tolerance)) qtys
      = none := by
    apply List.find?_eq_none.2
    intro q hmem
    simp only [decide_eq_true_eq, qsub_eq_sub, rabs_eq_abs, tolerance_eq]
    exact hq q hmem
  unfold resolveMatch
  cases cargo with
  | none => simp [hfind]
  | some cw =>
    have hcw : ¬(rabs (qsub cw entered) < tolerance) := by
      rw [qsub_eq_sub, rabs_eq_abs, tolerance_eq]
      exact hc cw rfl
    simp [hcw, hfind]

/-- C7 is falsified in its remarks clause: for a document where the Field
Locator finds 700 but the entered quantity 9999 matches nothing, the
failure remarks name only the located field value — they do not list the
extracted quantities. -/
theorem c7_counterexample :
    (validate_core ("WEIGHT OF CARGO DISCHARGED: 700".toList) 9999 none).status = "error" ∧
    (validate_core ("WEIGHT OF CARGO DISCHARGED: 700".toList) 9999 none).matched_quantity
      = none ∧
    (validate_core ("WEIGHT OF CARGO DISCHARGED: 700".toList) 9999 none).extracted_quantities
      = [700] ∧
    (validate_core ("WEIGHT OF CARGO DISCHARGED: 700".toList) 9999 none).remarks
      = some (Remark.mismatchField 9999 700) ∧
    ∀ dq qs, (validate_core ("WEIGHT OF CARGO DISCHARGED: 700".toList) 9999 none).remarks
      ≠ some (Remark.notFound dq qs) := by
  refine ⟨by decide, by decide, by decide, by decide, ?_⟩
  intro dq qs hcontra
  rw [show (validate_core ("WEIGHT OF CARGO DISCHARGED: 700".toList) 9999 none).remarks =
    some (Remark.mismatchField 9999 700) from by decide] at hcontra
  exact Remark.noConfusion (Option.some.inj hcontra)

/-- C7 (amended): when no extracted quantity and no located field value is
within tolerance of the entered quantity (and there is no scorer result),
the verdict is a normal HTTP 200 result document with status "error",
a null matched value, and remarks that list all extracted quantities when
no field value was located, but name only the located field value when one
was. -/
theorem c7_no_match_verdict (text : List Char) (entered : ℚ)
    (hq : ∀ q ∈ extract_quantities_from_text text, ¬(|q - entered| < 1 / 100))
    (hc : ∀ cw, extract_cargo_discharged_weight text = some cw →
      ¬(|cw - entered| < 1 / 100)) :
    (validate_core text entered none).status = "error" ∧
    (validate_core text entered none).matched_quantity = none ∧
    (validate_core text entered none).remarks = some
      (match extract_cargo_discharged_weight text with
       | some cw => Remark.mismatchField entered cw
       | none => Remark.notFound entered (extract_quantities_from_text text)) ∧
    (validate_core text entered none).extracted_quantities =
      extract_quantities_from_text text ∧
    validate_endpoint (some
      { record_id := some "r1"
        delivery_quantity := some (some entered)
        blob_name := some "doc.pdf" })
      text none = (200, some (validate_core text entered none)) := by
  have hres := resolveMatch_none hq hc
  have hpay : validate_core text entered none =
      { status := "error", delivery_quantity := entered, matched_quantity := none,
        cargo_discharged_weight := extract_cargo_discharged_weight text,
        remarks := some (match extract_cargo_discharged_weight text with
          | some cw => Remark.mismatchField entered cw
          | none => Remark.notFound entered (extract_quantities_from_text text)),
        extracted_quantities := extract_quantities_from_text text,
        extracted_text_preview := text.take 500, ai_agent := none } := by
    unfold validate_core applyScorer buildResult
    simp only []
    rw [hres]
    rfl
  refine ⟨by rw [hpay], by rw [hpay], by rw [hpay], by rw [hpay], ?_⟩
  unfold validate_endpoint
  have hcond : ((some "r1").getD "" = "" || (some (some entered)).isNone ||
      ((some "doc.pdf").getD "" = "" : Bool)) = false := by
    simp
  simp only [hcond]
  rfl

theorem c7_witness :
    (validate_core ("WEIGHT OF CARGO DISCHARGED: 700".toList) 9999 none).status
      = "error" :=
  (c7_no_match_verdict ("WEIGHT OF CARGO DISCHARGED: 700".toList) 9999
    (by
      intro q hmem
      rw [show extract_quantities_from_text ("WEIGHT OF CARGO DISCHARGED: 700".toList)
        = [700] from by decide] at hmem
      simp only [List.mem_singleton] at hmem
      subst hmem
      norm_num)
    (by
      intro cw hcw
      rw [show extract_cargo_discharged_weight ("WEIGHT OF CARGO DISCHARGED: 700".toList)
        = some 700 from by decide] at hcw
      injection hcw with hcw
      subst hcw
      norm_num)).1

/-- C9 is falsified: the grammar's group separator class `[,\s]` also
matches a tab, but the cleanup removes only commas and spaces, so the
token "1<tab>234" is matched, fails `float(...)`, and is silently
dropped — the defensive branch is reachable. -/
theorem c9_counterexample :
    tokensOf ("1\t234".toList) = ["1\t234".toList] ∧
    parseFloat (cleanSeps ("1\t234".toList)) = none ∧
    extract_quantities_from_text ("1\t234".toList) = [] := by
  exact ⟨by decide, by decide, by decide⟩

/-- C9 (amended): every substring matched by the tokenizer whose
whitespace characters are all plain spaces yields, after comma/space
removal, a string that parses as a float — the defensive parse-failure
branch is unreachable for space- and comma-separated tokens, and
reachable only through other whitespace separators such as tabs. -/
theorem c9_tokens_parse (text t : List Char) (ht : t ∈ tokensOf text)
    (hsp : ∀ c ∈ t, c.isWhitespace = true → c = ' ') :
    ∃ v, parseFloat (cleanSeps t) = some v :=
  tokenShape_parse (scanTokens_shape ht) hsp

theorem c9_witness :
    ∃ v, parseFloat (cleanSeps ("1,234.56".toList)) = some v :=
  c9_tokens_parse ("1,234.56".toList) ("1,234.56".toList) (by decide) (by decide)

/-- C3 is falsified: on "DISCHARGED: 12,34" the locator (pattern 7)
captures the numeric string "12,34" and parses it to 1234, but the
tokenizer's grammar does not generate "12,34" (a comma group needs
exactly three digits), while the locator's capture grammar does. -/
theorem c3_counterexample :
    searchCapture pat7 (normalizeText ("DISCHARGED: 12,34".toList)) =
      some ("12,34".toList) ∧
    parseFloat (cleanSeps ("12,34".toList)) = some 1234 ∧
    extract_cargo_discharged_weight ("DISCHARGED: 12,34".toList) = some 1234 ∧
    tokenGrammar ("12,34".toList) = false ∧
    numGrammar ("12,34".toList) = true := by
  exact ⟨by decide, by decide, by decide, by decide, by decide⟩

/-- C3 (amended): the inclusion holds in the opposite direction — every
whole string generated by the tokenizer's numeric grammar is accepted by
the locator's capture grammar `NUM` (and both sites then clean and parse
it with the very same comma/space-stripping and float conversion, hence
to the same value); the locator's grammar is strictly more permissive,
not equal. -/
theorem c3_grammar_inclusion (s : List Char) (h : tokenGrammar s = true) :
    numGrammar s = true :=
  tokenShape_numGrammar (tokenGrammar_shape h)

theorem c3_witness : numGrammar ("1,234.56".toList) = true :=
  c3_grammar_inclusion ("1,234.56".toList) (by decide)

/-! ## Round-tripping "1,234.56" through the tokenizer (C8) -/

theorem c8_tryMatch_at_token (prev : Option Char) (hprev : startBoundary prev = true)
    (b : List Char) (hb : b = [] ∨ ∃ b2, b = ' ' :: b2) :
    tryMatch prev ("1,234.56".toList ++ b) = some ("1,234.56".toList, b) := by
  rcases hb with rfl | ⟨b2, rfl⟩ <;>
    (unfold tryMatch; rw [if_pos hprev]; rfl)

theorem tryMatch_space_none (prev : Option Char) (xs : List Char) :
    tryMatch prev (' ' :: xs) = none := by
  unfold tryMatch
  by_cases h : startBoundary prev = true
  · rw [if_pos h]; rfl
  · rw [if_neg h]

theorem scanTokens_succ (f : ℕ) (prev : Option Char) (c : Char) (rest : List Char) :
    scanTokens (f + 1) prev (c :: rest) =
      (match tryMatch prev (c :: rest) with
       | some (t, r) => t :: scanTokens f t.getLast? r
       | none => scanTokens f (some c) rest) := rfl

/-- A match attempted left of the space that precedes `'1' :: ',' :: d`
never extends past that space: a space inside a token must begin a
`[,\s]?\d{3}` group, so three digits would have to follow it, but the
second character after the space is a comma. -/
theorem c8_no_cross {prev : Option Char} {a t r d : List Char}
    (h : tryMatch prev (a ++ ' ' :: '1' :: ',' :: d) = some (t, r)) :
    t.length ≤ a.length := by
  obtain ⟨hsplit, htne, hshape⟩ := tryMatch_some h
  by_contra hlen
  push_neg at hlen
  obtain ⟨us, hteq, hus⟩ := append_split a t r (' ' :: '1' :: ',' :: d) hsplit
    (le_of_lt hlen)
  cases us with
  | nil =>
    rw [hteq] at hlen
    simp at hlen
  | cons w us2 =>
    have hus2 : w :: (us2 ++ r) = ' ' :: '1' :: ',' :: d := by
      simpa using hus
    injection hus2 with hw1 hw2
    subst hw1
    obtain ⟨x, y, z, t3, hxyz, hx, hy, hz⟩ :=
      tokenShape_ws hshape a ' ' us2 hteq (by decide)
    rw [hxyz] at hw2
    simp only [List.cons_append] at hw2
    injection hw2 with _ hw3
    injection hw3 with hy1 _
    rw [hy1] at hy
    exact absurd hy (by decide)

theorem c8_scan_head (fuel : ℕ) (prev : Option Char) (b : List Char)
    (hfuel : (' ' :: ("1,234.56".toList ++ b)).length ≤ fuel)
    (hb : b = [] ∨ ∃ b2, b = ' ' :: b2) :
    "1,234.56".toList ∈ scanTokens fuel prev (' ' :: ("1,234.56".toList ++ b)) := by
  cases fuel with
  | zero => simp at hfuel
  | succ f =>
    rw [scanTokens_succ, tryMatch_space_none]
    have h8 : ("1,234.56".toList).length = 8 := rfl
    have hlen : 1 ≤ f := by
      simp only [List.length_cons, List.length_append, h8] at hfuel
      omega
    cases f with
    | zero => omega
    | succ f2 =>
      have hA : tryMatch (some ' ') ('1' :: (",234.56".toList ++ b)) =
          some ("1,234.56".toList, b) := c8_tryMatch_at_token (some ' ') rfl b hb
      show "1,234.56".toList ∈
        scanTokens (f2 + 1) (some ' ') ('1' :: (",234.56".toList ++ b))
      rw [scanTokens_succ, hA]
      exact List.mem_cons_self _ _

theorem c8_scan_reach : ∀ (n : ℕ) (a : List Char), a.length ≤ n →
    ∀ (fuel : ℕ) (prev : Option Char) (b : List Char),
    (a ++ ' ' :: ("1,234.56".toList ++ b)).length ≤ fuel →
    (b = [] ∨ ∃ b2, b = ' ' :: b2) →
    "1,234.56".toList ∈ scanTokens fuel prev (a ++ ' ' :: ("1,234.56".toList ++ b)) := by
  intro n
  induction n with
  | zero =>
    intro a ha fuel prev b hfuel hb
    have ha0 : a = [] := List.length_eq_zero.1 (Nat.le_zero.1 ha)
    subst ha0
    simpa using c8_scan_head fuel prev b (by simpa using hfuel) hb
  | succ n ih =>
    intro a ha fuel prev b hfuel hb
    match a with
    | [] => simpa using c8_scan_head fuel prev b (by simpa using hfuel) hb
    | c :: a2 =>
      cases fuel with
      | zero => simp at hfuel
      | succ f =>
        have hcons : (c :: a2) ++ ' ' :: ("1,234.56".toList ++ b) =
            c :: (a2 ++ ' ' :: ("1,234.56".toList ++ b)) := rfl
        rw [hcons, scanTokens_succ]
        cases htm : tryMatch prev (c :: (a2 ++ ' ' :: ("1,234.56".toList ++ b))) with
        | none =>
          have ha2 : a2.length ≤ n := by
            simp only [List.length_cons] at ha
            omega
          have hf2 : (a2 ++ ' ' :: ("1,234.56".toList ++ b)).length ≤ f := by
            simp only [List.length_cons, List.length_append] at hfuel ⊢
            omega
          exact ih a2 ha2 f (some c) b hf2 hb
        | some tr =>
          obtain ⟨t, r⟩ := tr
          have hncross : t.length ≤ (c :: a2).length := by
            have h2 : tryMatch prev
                ((c :: a2) ++ ' ' :: '1' :: ',' :: ("234.56".toList ++ b)) =
                some (t, r) := htm
            exact c8_no_cross h2
          obtain ⟨hsplit, htne, _⟩ := tryMatch_some htm
          have e1 : (c :: a2) ++ ' ' :: ("1,234.56".toList ++ b) = t ++ r :=
            hsplit.symm
          obtain ⟨us, haeq, husr⟩ :=
            append_split t (c :: a2) (' ' :: ("1,234.56".toList ++ b)) r e1 hncross
          have htpos : 1 ≤ t.length := by
            cases t with
            | nil => exact absurd rfl htne
            | cons x xs => simp
          have huslen : us.length ≤ n := by
            have hlena : (c :: a2).length = t.length + us.length := by
              rw [haeq]
              simp [List.length_append]
            simp only [List.length_cons] at hlena ha
            omega
          have hf2 : (us ++ ' ' :: ("1,234.56".toList ++ b)).length ≤ f := by
            have hrlen : r.length =
                us.length + (' ' :: ("1,234.56".toList ++ b)).length := by
              rw [← husr]
              simp [List.length_append]
            have hclen : (t ++ r).length =
                ((c :: a2) ++ ' ' :: ("1,234.56".toList ++ b)).length := by
              rw [hsplit]
              rfl
            simp only [List.length_append, List.length_cons] at hrlen hclen hfuel ⊢
            omega
          show "1,234.56".toList ∈ t :: scanTokens f t.getLast? r
          apply List.mem_cons_of_mem
          rw [show r = us ++ ' ' :: ("1,234.56".toList ++ b) from husr.symm]
          exact ih us huslen f t.getLast? b hf2 hb

/-- C8 is falsified: "11,234.56" contains "1,234.56" as a substring, but
the scan matches the whole token "11,234.56" (the inner occurrence is not
at a word boundary), so the output is [11234.56] and 1234.56 is absent. -/
theorem c8_counterexample :
    ("11,234.56".toList = "1".toList ++ "1,234.56".toList) ∧
    extract_quantities_from_text ("11,234.56".toList) = [mkRat 1123456 100] ∧
    mkRat 123456 100 ∉ extract_quantities_from_text ("11,234.56".toList) := by
  exact ⟨by decide, by decide, by decide⟩

/-- C8 (amended): whenever "1,234.56" occurs delimited by spaces (or at
the very start/end of the text), the tokenizer's output contains 1234.56:
group separators are stripped and the token parses.  Without the
delimitation the occurrence can be absorbed into an adjacent longer match. -/
theorem c8_round_trip (a b : List Char)
    (ha : a = [] ∨ ∃ a2, a = a2 ++ [' '])
    (hb : b = [] ∨ ∃ b2, b = ' ' :: b2) :
    mkRat 123456 100 ∈ extract_quantities_from_text (a ++ "1,234.56".toList ++ b) := by
  have hparse : parseFloat (cleanSeps ("1,234.56".toList)) = some (mkRat 123456 100) := by
    decide
  have hmemtok : "1,234.56".toList ∈ tokensOf (a ++ "1,234.56".toList ++ b) := by
    rcases ha with rfl | ⟨a2, rfl⟩
    · simp only [List.nil_append]
      have hA : tryMatch none ('1' :: (",234.56".toList ++ b)) =
          some ("1,234.56".toList, b) := c8_tryMatch_at_token none rfl b hb
      show "1,234.56".toList ∈
        scanTokens ("1,234.56".toList ++ b).length none ('1' :: (",234.56".toList ++ b))
      have hlen : ("1,234.56".toList ++ b).length = (",234.56".toList ++ b).length + 1 := by
        simp [List.length_append]
      rw [hlen, scanTokens_succ, hA]
      exact List.mem_cons_self _ _
    · have heq : (a2 ++ [' ']) ++ "1,234.56".toList ++ b =
          a2 ++ ' ' :: ("1,234.56".toList ++ b) := by
        simp [List.append_assoc]
      unfold tokensOf
      rw [heq]
      exact c8_scan_reach a2.length a2 le_rfl _ none b le_rfl hb
  show mkRat 123456 100 ∈
    (tokensOf (a ++ "1,234.56".toList ++ b)).filterMap (fun t => parseFloat (cleanSeps t))
  exact List.mem_filterMap.2 ⟨_, hmemtok, hparse⟩

theorem c8_witness :
    mkRat 123456 100 ∈ extract_quantities_from_text ("x 1,234.56 kg".toList) :=
  c8_round_trip ("x ".toList) (" kg".toList)
    (Or.inr ⟨"x".toList, rfl⟩) (Or.inr ⟨"kg".toList, rfl⟩)

end OcrValidation
